import Mathlib

/-!
Verification of the gokr-rsync core against its specification.

Shallow embedding of the relevant parts of the source tree:
  * `rsyncd` checksum sizing (`sumSizesSqroot`, generatorsymlink.go) and the
    server-side multiplex writer (`multiplexWriter.Write`),
  * the daemon ACL check (`checkACL`, restrictmodules.go),
  * the receiver (`openLocalFile`, `receiveData`, receiver.go) together with
    MD4 (the whole-file strong checksum) and the token-stream reconstruction,
  * the receiver's deletion pass (`deleteFiles` / `Transfer.Do`,
    generatorsymlink.go).

Machine integers are modelled as `Nat`/`Int`; all modelled quantities stay
far below the `int32`/`int64` overflow boundaries of the source (noted at
each definition where it matters), so no wrap-around modelling is needed.
-/

set_option maxRecDepth 40000

namespace GokrRsync

/-! ## Checksum sizing (rsyncd generatorsymlink.go, `sumSizesSqroot`)

The Go struct `sumHead` carries four `int32` fields. The generator only ever
produces nonnegative values (counts, lengths), so the model uses `Nat`. -/

structure SumHead where
  checksumCount : Nat
  blockLength : Nat
  checksumLength : Nat
  remainderLength : Nat
deriving Repr, DecidableEq

/-- Constant `blockSize = 700` from rsync/rsync.h, mirrored at the bottom of
generatorsymlink.go. -/
def blockSize : Nat := 700

/-- Model of `sumSizesSqroot` (generatorsymlink.go):

    blockLength := int32(math.Sqrt(float64(len)))
    if blockLength < blockSize { blockLength = blockSize }
    return sumHead with
      ChecksumCount   = (len + (blockLength-1)) / blockLength
      RemainderLength = len % blockLength
      BlockLength     = blockLength
      ChecksumLength  = 16

`int32(math.Sqrt(float64(len)))` truncates the correctly-rounded floating
square root toward zero; for every `len < 2^52` (far beyond any realistic
file length) this equals `Nat.sqrt len`, the floor square root, and the
result is below `2^26`, so the `int32` conversion cannot overflow. -/
def sumSizesSqroot (len : Nat) : SumHead :=
  let bl := Nat.sqrt len
  let blockLength := if bl < blockSize then blockSize else bl
  { checksumCount := (len + (blockLength - 1)) / blockLength
    blockLength := blockLength
    checksumLength := 16
    remainderLength := len % blockLength }

/-- Nearest-integer square root: the reading of `round(sqrt(L))` used by the
spec ("block-length = max(700, round(sqrt(L)))"). Rounds up exactly when
`sqrt L >= Nat.sqrt L + 1/2`, i.e. when `L > s*s + s`. -/
def roundedSqrt (n : Nat) : Nat :=
  let s := Nat.sqrt n
  if s * s + s < n then s + 1 else s

theorem sumSizesSqroot_blockLength_pos (L : Nat) :
    700 ≤ (sumSizesSqroot L).blockLength := by
  unfold sumSizesSqroot blockSize
  dsimp only
  split
  · exact Nat.le_refl 700
  · omega

/-- C7: for every file length `L ≥ 0` and the block length `B` chosen by the
sum sizing, the generated SumHead satisfies `checksumCount = ⌈L/B⌉` and
`remainderLength = L mod B`. -/
theorem sumHead_arithmetic (L : Nat) :
    (sumSizesSqroot L).checksumCount = L ⌈/⌉ (sumSizesSqroot L).blockLength ∧
    (sumSizesSqroot L).remainderLength = L % (sumSizesSqroot L).blockLength := by
  have hB := sumSizesSqroot_blockLength_pos L
  rw [Nat.ceilDiv_eq_add_pred_div]
  refine ⟨?_, rfl⟩
  have harg : L + ((sumSizesSqroot L).blockLength - 1)
      = L + (sumSizesSqroot L).blockLength - 1 := by omega
  show (L + ((sumSizesSqroot L).blockLength - 1)) / (sumSizesSqroot L).blockLength = _
  rw [harg]

/-- Witness for C7 at L = 1500: the chosen block length is 700, the checksum
count is ⌈1500/700⌉ = 3 and the remainder is 1500 mod 700 = 100. -/
theorem sumHead_arithmetic_witness :
    (sumSizesSqroot 1500).checksumCount = 1500 ⌈/⌉ (sumSizesSqroot 1500).blockLength ∧
    (sumSizesSqroot 1500).remainderLength = 1500 % (sumSizesSqroot 1500).blockLength :=
  sumHead_arithmetic 1500

/-- C5, counterexample: for a zero-length file the generated SumHead is not
all zeroes: `sumSizesSqroot 0 = {0, 700, 16, 0}` (the block length is clamped
to 700 and the strong-checksum length is the constant 16). -/
theorem sumSizesSqroot_zero_not_all_zero :
    sumSizesSqroot 0 ≠ ⟨0, 0, 0, 0⟩ := by decide

/-- C5, amended: for file length L = 0 the generated SumHead has block count
0, block length 700, strong length 16 and remainder length 0; since the block
count is 0, no block checksums are transmitted. -/
theorem sumSizesSqroot_zero :
    sumSizesSqroot 0 = ⟨0, 700, 16, 0⟩ ∧ (sumSizesSqroot 0).checksumCount = 0 := by
  decide

/-- C6: the source comment says "The block size is a rounded square root of
file length" (with a "TODO: round this" acknowledging the slip), and the spec
says `max(700, round(sqrt(L)))`, but the code truncates the square root. At
file length 491000 the code produces block length 700 (truncated sqrt
700.71), while the documented rounding gives 701. -/
theorem sumSizesSqroot_truncates_not_rounds :
    (sumSizesSqroot 491000).blockLength = 700 ∧
    max 700 (roundedSqrt 491000) = 701 := by
  have hs : Nat.sqrt 491000 = 700 := by
    have h : Nat.sqrt (700 * 700 + 1000) = 700 := Nat.sqrt_add_eq 700 (by norm_num)
    have he : (700 * 700 + 1000 : Nat) = 491000 := by norm_num
    rw [he] at h
    exact h
  constructor
  · show (if Nat.sqrt 491000 < blockSize then blockSize else Nat.sqrt 491000) = 700
    rw [hs]; rfl
  · show max 700 (if Nat.sqrt 491000 * Nat.sqrt 491000 + Nat.sqrt 491000 < 491000
      then Nat.sqrt 491000 + 1 else Nat.sqrt 491000) = 701
    rw [hs]; norm_num

/-! ## Server-side multiplex writer (rsyncd generatorsymlink.go, `multiplexWriter.Write`)

    func (w *multiplexWriter) Write(p []byte) (n int, err error) {
        header := uint32(7)<<24 | uint32(len(p))
        binary.Write(w.underlying, binary.LittleEndian, header)
        return w.underlying.Write(p)
    }
-/

/-- Little-endian byte serialization of a 32-bit word, as produced by
`binary.Write(w, binary.LittleEndian, header)` for a `uint32`. -/
def leBytes4 (w : Nat) : List Nat :=
  [w % 256, w / 2 ^ 8 % 256, w / 2 ^ 16 % 256, w / 2 ^ 24 % 256]

/-- Header computed by the code: `uint32(7)<<24 | uint32(len(p))`. The
conversion `uint32(len(p))` reduces the (nonnegative) `int` length mod 2^32;
note the length is NOT masked to the low 24 bits before the or. -/
def mwHeader (n : Nat) : Nat := 7 <<< 24 ||| n % 2 ^ 32

/-- The header the spec prescribes: `tag<<24 | (len & 0x00FFFFFF)` with
tag 7 (data). -/
def mwHeaderSpec (n : Nat) : Nat := 7 <<< 24 ||| (n &&& 0xFFFFFF)

/-- Byte stream emitted by one `multiplexWriter.Write` call on payload `p`:
the 4-byte little-endian header followed by the payload. -/
def mwWrite (p : List Nat) : List Nat := leBytes4 (mwHeader p.length) ++ p

theorem leBytes4_append_take (h : Nat) (p : List Nat) :
    (leBytes4 h ++ p).take 4 = leBytes4 h := rfl

/-- C8, counterexample: for a payload of 2^27 bytes the emitted header is
`[0, 0, 0, 15]` (the length bit 27 leaks into the tag byte, 0x07 | 0x08 =
0x0F), while the header the claim prescribes, `7<<24 | (len & 0x00FFFFFF)`,
would serialize as `[0, 0, 0, 7]`: the top header byte is not 7. -/
theorem mwWrite_large_payload_corrupts_tag :
    (mwWrite (List.replicate (2 ^ 27) 0)).take 4 = [0, 0, 0, 15] ∧
    leBytes4 (mwHeaderSpec (2 ^ 27)) = [0, 0, 0, 7] := by
  constructor
  · rw [mwWrite, leBytes4_append_take, List.length_replicate]
    decide
  · decide

theorem mwHeader_eq_of_lt (n : Nat) (h : n < 2 ^ 24) :
    mwHeader n = 7 * 2 ^ 24 + n := by
  have hn : n % 2 ^ 32 = n := Nat.mod_eq_of_lt (by omega)
  have hs : (7 : Nat) <<< 24 = 2 ^ 24 * 7 := by rw [Nat.shiftLeft_eq]; ring
  rw [mwHeader, hn, hs, ← Nat.mul_add_lt_is_or h 7]
  ring

theorem mwHeaderSpec_eq_of_lt (n : Nat) (h : n < 2 ^ 24) :
    mwHeaderSpec n = 7 * 2 ^ 24 + n := by
  have hmask : n &&& 0xFFFFFF = n := by
    have : n &&& 2 ^ 24 - 1 = n % 2 ^ 24 := Nat.and_pow_two_sub_one_eq_mod n 24
    have h2 : (0xFFFFFF : Nat) = 2 ^ 24 - 1 := by norm_num
    rw [h2, this, Nat.mod_eq_of_lt h]
  have hs : (7 : Nat) <<< 24 = 2 ^ 24 * 7 := by rw [Nat.shiftLeft_eq]; ring
  rw [mwHeaderSpec, hmask, hs, ← Nat.mul_add_lt_is_or h 7]
  ring

/-- C8, amended: for every payload shorter than 2^24 bytes the emitted frame
is the 4-byte little-endian header `7<<24 | (len & 0x00FFFFFF)` followed by
exactly the payload bytes, and the top header byte is 7; for longer payloads
the length is not masked, so its high bits corrupt the tag byte. -/
theorem mwWrite_frame (p : List Nat) (h : p.length < 2 ^ 24) :
    mwWrite p = leBytes4 (mwHeaderSpec p.length) ++ p ∧
    (mwWrite p).take 4 =
      [p.length % 256, p.length / 2 ^ 8 % 256, p.length / 2 ^ 16 % 256, 7] := by
  have he : mwHeader p.length = mwHeaderSpec p.length := by
    rw [mwHeader_eq_of_lt _ h, mwHeaderSpec_eq_of_lt _ h]
  constructor
  · rw [mwWrite, he]
  · rw [mwWrite, leBytes4_append_take, mwHeader_eq_of_lt _ h, leBytes4]
    have h0 : (7 * 2 ^ 24 + p.length) % 256 = p.length % 256 := by omega
    have h1 : (7 * 2 ^ 24 + p.length) / 2 ^ 8 % 256 = p.length / 2 ^ 8 % 256 := by omega
    have h2 : (7 * 2 ^ 24 + p.length) / 2 ^ 16 % 256 = p.length / 2 ^ 16 % 256 := by omega
    have h3 : (7 * 2 ^ 24 + p.length) / 2 ^ 24 % 256 = 7 := by omega
    rw [h0, h1, h2, h3]

/-- Witness for C8 on the concrete payload [1, 2, 3]: the frame is the header
[3, 0, 0, 7] followed by the payload. -/
theorem mwWrite_frame_witness :
    mwWrite [1, 2, 3] = leBytes4 (mwHeaderSpec ([1, 2, 3] : List Nat).length) ++ [1, 2, 3] ∧
    (mwWrite [1, 2, 3]).take 4 =
      [([1, 2, 3] : List Nat).length % 256, ([1, 2, 3] : List Nat).length / 2 ^ 8 % 256,
        ([1, 2, 3] : List Nat).length / 2 ^ 16 % 256, 7] :=
  mwWrite_frame [1, 2, 3] (by decide)

/-! ## Daemon ACL check (rsyncd/restrictmodules.go, `checkACL`)

The Go function takes the module's ACL (a `[]string`) and the remote
`net.Addr`. It first returns nil (allow) for an empty ACL list, then parses
the remote address; we model remote addresses by the parsed IPv4 value
(a `Nat` below 2^32), as the claims quantify over addresses whose IP parses.
`net.ParseCIDR` also accepts IPv6 prefixes; the model covers the IPv4 form,
which is the shape the spec's rules use. -/

/-- Split at the first space, returning the parts before and after it:
models `i := strings.Index(acl, " "); action, who := acl[:i], acl[i+1:]`.
Returns none when the string has no space. -/
def splitFirstSpace : List Char → Option (List Char × List Char)
  | [] => none
  | c :: rest =>
    if c = ' ' then some ([], rest)
    else (splitFirstSpace rest).map (fun p => (c :: p.1, p.2))

/-- Split on a separator character, as `strings.Split`/field iteration does
in Go's IP parser: `splitOnChar '.' ['1','0','.','1']` is `[['1','0'],['1']]`. -/
def splitOnChar (sep : Char) : List Char → List (List Char)
  | [] => [[]]
  | c :: rest =>
    let r := splitOnChar sep rest
    if c = sep then [] :: r
    else
      match r with
      | g :: gs => (c :: g) :: gs
      | [] => [[c]]

/-- Decimal parser modelling Go's `dtoi` under the requirement (imposed by
every caller in `net.ParseCIDR`) that the whole field is consumed: at least
one character, all digits. Overflowing values are rejected by the callers'
range checks (≤ 255 resp. ≤ 32) just as `dtoi`'s `big` cutoff rejects them. -/
def parseDecAll (cs : List Char) : Option Nat :=
  if cs.isEmpty then none
  else if cs.all Char.isDigit then
    some (cs.foldl (fun n c => n * 10 + (c.toNat - 48)) 0)
  else none

/-- One dotted-quad field of `net.parseIPv4`: a fully-consumed decimal,
at most 255, with no leading zero (Go rejects `010`-style fields). -/
def parseIPv4Field (cs : List Char) : Option Nat :=
  match parseDecAll cs with
  | none => none
  | some n =>
    if 255 < n then none
    else if 1 < cs.length ∧ cs.head? = some '0' then none
    else some n

/-- Model of `net.parseIPv4`: exactly four dotted-quad fields. The result is
the IPv4 address as a big-endian 32-bit value. -/
def parseIPv4 (cs : List Char) : Option Nat :=
  match (splitOnChar '.' cs).map parseIPv4Field with
  | [some a, some b, some c, some d] => some (((a * 256 + b) * 256 + c) * 256 + d)
  | _ => none

/-- `net.CIDRMask(n, 32)` as a 32-bit value: the high `n` bits set. -/
def cidrMask (n : Nat) : Nat := 2 ^ 32 - 2 ^ (32 - n)

/-- Model of `net.ParseCIDR` for IPv4: `addr/len` with `len ≤ 32`; the
returned network address is the address masked by the prefix mask, as
`ParseCIDR` returns `&IPNet{IP: ip.Mask(mask), Mask: mask}`. -/
def parseCIDR (cs : List Char) : Option (Nat × Nat) :=
  match splitOnChar '/' cs with
  | [addr, maskStr] =>
    match parseIPv4 addr, parseDecAll maskStr with
    | some ip, some n => if n ≤ 32 then some (ip &&& cidrMask n, cidrMask n) else none
    | _, _ => none
  | _ => none

/-- `(*net.IPNet).Contains`: the candidate address masked by the network
mask equals the (already masked) network address. -/
def cidrContains (network mask ip : Nat) : Bool := ip &&& mask == network

def kwAllow : List Char := ['a', 'l', 'l', 'o', 'w']

def kwDeny : List Char := ['d', 'e', 'n', 'y']

def kwAll : List Char := ['a', 'l', 'l']

/-- Outcome of `checkACL`: `allowed` is Go's `nil` return, `denied` the
"access denied (acl %q)" error, `invalidACL` any of the "invalid acl"
parse errors. -/
inductive ACLDecision where
  | allowed
  | denied (acl : String)
  | invalidACL (acl : String)
deriving DecidableEq, Repr

/-- The rule loop of `checkACL` (restrictmodules.go lines 156-187): split the
rule at its first space into action and subject, reject unknown actions,
match `all` unconditionally, otherwise parse the CIDR and skip the rule when
it does not contain the remote IP; an allow match returns nil, a deny match
returns the access-denied error; falling off the loop returns nil. -/
def checkACLLoop (remoteIP : Nat) : List String → ACLDecision
  | [] => .allowed
  | acl :: rest =>
    match splitFirstSpace acl.data with
    | none => .invalidACL acl
    | some (action, who) =>
      if action = kwAllow ∨ action = kwDeny then
        if who = kwAll then
          if action = kwAllow then .allowed else .denied acl
        else
          match parseCIDR who with
          | none => .invalidACL acl
          | some (network, mask) =>
            if cidrContains network mask remoteIP then
              if action = kwAllow then .allowed else .denied acl
            else checkACLLoop remoteIP rest
      else .invalidACL acl

/-- Model of `checkACL`: an empty ACL list allows immediately (before the
remote address is even parsed); otherwise the rules are scanned in order. -/
def checkACL (acls : List String) (remoteIP : Nat) : ACLDecision :=
  if acls.isEmpty then .allowed else checkACLLoop remoteIP acls

/-- An ACL rule's subject, in parsed form: `all` or a CIDR. -/
inductive RuleSubject where
  | all
  | cidr (network mask : Nat)
deriving DecidableEq, Repr

/-- Parse one rule into (is-allow, subject), following the same grammar as
`checkACL`; none for the malformed rules `checkACL` reports as invalid. -/
def ruleParse (acl : String) : Option (Bool × RuleSubject) :=
  match splitFirstSpace acl.data with
  | none => none
  | some (action, who) =>
    if action = kwAllow ∨ action = kwDeny then
      if who = kwAll then some (action = kwAllow, .all)
      else
        match parseCIDR who with
        | none => none
        | some (network, mask) => some (action = kwAllow, .cidr network mask)
    else none

/-- Whether a rule's subject matches the remote IP ("allow/deny 'all' or a
CIDR containing the IP", in the claim's words). -/
def subjectMatches (s : RuleSubject) (ip : Nat) : Bool :=
  match s with
  | .all => true
  | .cidr network mask => cidrContains network mask ip

/-- The claim's reading of the ACL semantics: rules scanned in order, the
first rule whose subject matches the IP decides (true = allow), and when no
rule matches the stated default applies. The claim asserts the default is
deny (`firstMatchOutcome false`); the code implements default allow. -/
def firstMatchOutcome (dflt : Bool) (acls : List String) (ip : Nat) : Bool :=
  match acls with
  | [] => dflt
  | acl :: rest =>
    match ruleParse acl with
    | some (isAllow, subj) =>
      if subjectMatches subj ip then isAllow else firstMatchOutcome dflt rest ip
    | none => firstMatchOutcome dflt rest ip

/-- IPv4 address from its four octets. -/
def ipv4 (a b c d : Nat) : Nat := ((a * 256 + b) * 256 + c) * 256 + d

/-- C1, counterexample: with the single rule list [deny 10.0.0.0/8] and
remote IP 192.168.1.1 no rule matches; the claim says the result is deny,
but `checkACL` falls off the loop and returns nil, i.e. the access is
allowed. -/
theorem checkACL_no_match_allows :
    checkACL ["deny 10.0.0.0/8"] (ipv4 192 168 1 1) = ACLDecision.allowed ∧
    firstMatchOutcome false ["deny 10.0.0.0/8"] (ipv4 192 168 1 1) = false := by
  decide

theorem checkACLLoop_first_match (ip : Nat) (acls : List String)
    (h : ∀ acl ∈ acls, (ruleParse acl).isSome) :
    (checkACLLoop ip acls = ACLDecision.allowed ↔
      firstMatchOutcome true acls ip = true) ∧
    ∀ r, checkACLLoop ip acls ≠ ACLDecision.invalidACL r := by
  induction acls with
  | nil => exact ⟨by simp [checkACLLoop, firstMatchOutcome], by simp [checkACLLoop]⟩
  | cons acl rest ih =>
    have hacl : (ruleParse acl).isSome := h acl (List.mem_cons_self acl rest)
    have hrest := ih (fun a ha => h a (List.mem_cons_of_mem acl ha))
    rcases hsp : splitFirstSpace acl.data with _ | ⟨action, who⟩
    · simp only [ruleParse, hsp] at hacl
      simp at hacl
    · simp only [ruleParse, hsp] at hacl
      simp only [checkACLLoop, firstMatchOutcome, ruleParse, hsp]
      by_cases hact : action = kwAllow ∨ action = kwDeny
      · simp only [if_pos hact] at hacl ⊢
        by_cases hall : who = kwAll
        · simp only [if_pos hall]
          by_cases hA : action = kwAllow <;> simp [hA, subjectMatches]
        · simp only [if_neg hall] at hacl ⊢
          rcases hcidr : parseCIDR who with _ | ⟨network, mask⟩ <;>
            simp only [hcidr] at hacl ⊢
          · simp at hacl
          · by_cases hc : cidrContains network mask ip = true
            · simp only [if_pos hc, subjectMatches]
              by_cases hA : action = kwAllow <;> simp [hA, hc]
            · have hc' : cidrContains network mask ip = false := by
                cases hcb : cidrContains network mask ip
                · rfl
                · exact absurd hcb hc
              simp only [if_neg hc, subjectMatches, hc']
              simpa using hrest
      · simp only [if_neg hact] at hacl
        simp at hacl

/-- C1, amended: `checkACL` evaluates well-formed rules in order and the
first rule whose subject matches the remote IP (allow/deny `all` or a CIDR
containing the IP) decides the outcome, but when no rule matches — and for
the empty rule list — the result is ALLOW, not deny. -/
theorem checkACL_first_match (acls : List String) (ip : Nat)
    (h : ∀ acl ∈ acls, (ruleParse acl).isSome) :
    (checkACL acls ip = ACLDecision.allowed ↔
      firstMatchOutcome true acls ip = true) ∧
    ∀ r, checkACL acls ip ≠ ACLDecision.invalidACL r := by
  rw [checkACL]
  rcases acls with _ | ⟨acl, rest⟩
  · exact ⟨by simp [firstMatchOutcome], by simp⟩
  · simpa using checkACLLoop_first_match ip (acl :: rest) h

/-- Witness for C1 (amended) on the rule list [deny 10.0.0.0/8, allow all]
and remote IP 10.1.2.3: the first matching rule is the deny, so the result
is not allowed, matching the first-match semantics. -/
theorem checkACL_first_match_witness :
    (checkACL ["deny 10.0.0.0/8", "allow all"] (ipv4 10 1 2 3) = ACLDecision.allowed ↔
      firstMatchOutcome true ["deny 10.0.0.0/8", "allow all"] (ipv4 10 1 2 3) = true) ∧
    ∀ r, checkACL ["deny 10.0.0.0/8", "allow all"] (ipv4 10 1 2 3)
      ≠ ACLDecision.invalidACL r :=
  checkACL_first_match ["deny 10.0.0.0/8", "allow all"] (ipv4 10 1 2 3) (by decide)

/-! ## MD4 (RFC 1320)

The receiver computes the whole-file strong checksum with `md4.New()` seeded
by `binary.Write(h, binary.LittleEndian, rt.Seed)` (receiver.go lines
110-111); `github.com/mmcloughlin/md4` implements standard MD4. Bytes are
`Nat` values below 256, words `Nat` values below 2^32. -/

def rotl32 (x s : Nat) : Nat := ((x <<< s) % 2 ^ 32) ||| (x >>> (32 - s))

def mdF (x y z : Nat) : Nat := (x &&& y) ||| ((x ^^^ 0xFFFFFFFF) &&& z)

def mdG (x y z : Nat) : Nat := (x &&& y) ||| (x &&& z) ||| (y &&& z)

def mdH (x y z : Nat) : Nat := x ^^^ y ^^^ z

structure MD4State where
  a : Nat
  b : Nat
  c : Nat
  d : Nat
deriving Repr, DecidableEq

/-- One MD4 operation. The register roles rotate: applying four steps in a
row performs the `[A B C D] [D A B C] [C D A B] [B C D A]` pattern of the
RFC. `ks` is the (message-word index, left-rotation amount) pair. -/
def md4Step (f : Nat → Nat → Nat → Nat) (add : Nat) (X : List Nat)
    (st : MD4State) (ks : Nat × Nat) : MD4State :=
  let x := X.getD ks.1 0
  ⟨st.d, rotl32 ((st.a + f st.b st.c st.d + x + add) % 2 ^ 32) ks.2, st.b, st.c⟩

def md4Round1Schedule : List (Nat × Nat) :=
  [(0, 3), (1, 7), (2, 11), (3, 19), (4, 3), (5, 7), (6, 11), (7, 19),
   (8, 3), (9, 7), (10, 11), (11, 19), (12, 3), (13, 7), (14, 11), (15, 19)]

def md4Round2Schedule : List (Nat × Nat) :=
  [(0, 3), (4, 5), (8, 9), (12, 13), (1, 3), (5, 5), (9, 9), (13, 13),
   (2, 3), (6, 5), (10, 9), (14, 13), (3, 3), (7, 5), (11, 9), (15, 13)]

def md4Round3Schedule : List (Nat × Nat) :=
  [(0, 3), (8, 9), (4, 11), (12, 15), (2, 3), (10, 9), (6, 11), (14, 15),
   (1, 3), (9, 9), (5, 11), (13, 15), (3, 3), (11, 9), (7, 11), (15, 15)]

def md4Block (X : List Nat) (st : MD4State) : MD4State :=
  let s1 := md4Round1Schedule.foldl (md4Step mdF 0 X) st
  let s2 := md4Round2Schedule.foldl (md4Step mdG 0x5A827999 X) s1
  let s3 := md4Round3Schedule.foldl (md4Step mdH 0x6ED9EBA1 X) s2
  ⟨(st.a + s3.a) % 2 ^ 32, (st.b + s3.b) % 2 ^ 32,
   (st.c + s3.c) % 2 ^ 32, (st.d + s3.d) % 2 ^ 32⟩

/-- Little-endian 32-bit words from a byte stream (whole 4-byte groups). -/
def toWords : List Nat → List Nat
  | b0 :: b1 :: b2 :: b3 :: rest =>
    (b0 + 2 ^ 8 * b1 + 2 ^ 16 * b2 + 2 ^ 24 * b3) :: toWords rest
  | _ => []

def md4Blocks : MD4State → List Nat → MD4State
  | st, w0 :: w1 :: w2 :: w3 :: w4 :: w5 :: w6 :: w7 ::
        w8 :: w9 :: w10 :: w11 :: w12 :: w13 :: w14 :: w15 :: rest =>
    md4Blocks
      (md4Block [w0, w1, w2, w3, w4, w5, w6, w7, w8, w9, w10, w11, w12, w13, w14, w15] st)
      rest
  | st, _ => st

def leBytes8 (n : Nat) : List Nat :=
  [n % 256, n / 2 ^ 8 % 256, n / 2 ^ 16 % 256, n / 2 ^ 24 % 256,
   n / 2 ^ 32 % 256, n / 2 ^ 40 % 256, n / 2 ^ 48 % 256, n / 2 ^ 56 % 256]

/-- MD4 padding: a 0x80 byte, zeros up to 56 mod 64, then the bit length as
a little-endian 64-bit value. -/
def md4Pad (msg : List Nat) : List Nat :=
  msg ++ [0x80] ++ List.replicate ((119 - msg.length % 64) % 64) 0 ++
    leBytes8 ((8 * msg.length) % 2 ^ 64)

def md4Init : MD4State := ⟨0x67452301, 0xefcdab89, 0x98badcfe, 0x10325476⟩

def md4 (msg : List Nat) : List Nat :=
  let st := md4Blocks md4Init (toWords (md4Pad msg))
  leBytes4 st.a ++ leBytes4 st.b ++ leBytes4 st.c ++ leBytes4 st.d

/-- Sanity check against the RFC 1320 test vector MD4("") =
31d6cfe0d16ae931b73c59d7e0c089c0. -/
theorem md4_empty_vector :
    md4 [] = [0x31, 0xd6, 0xcf, 0xe0, 0xd1, 0x6a, 0xe9, 0x31,
              0xb7, 0x3c, 0x59, 0xd7, 0xe0, 0xc0, 0x89, 0xc0] := by decide

/-- The 4 bytes `binary.Write(h, binary.LittleEndian, rt.Seed)` feeds into
the MD4 state before the file content: the seed is an `int32`, serialized
little-endian in two's complement. -/
def seedBytes (seed : Int) : List Nat := leBytes4 ((seed % (2 ^ 32 : Int)).toNat)

/-! ## Receiver (internal/receiver/receiver.go)

The `File` struct of the receiver package is declared outside src/.
Modelled from the spec: FileEntry is "{index, name (slash-separated
relative), length (int64), mtime (int32 unix), mode (combined unix
mode+filetype bits), uid?, gid?, rdev?, symlink-target?}"; the code under
src/ accesses the fields `Name`, `Mode`, `Uid`, `Gid` of this struct. -/

structure File where
  name : String
  length : Int
  modTime : Int
  mode : Int
  uid : Int
  gid : Int
  rdev : Int
  linkTarget : String
deriving Repr, DecidableEq

/-- Result of `in.Stat()` on the opened destination path, with the fields
`openLocalFile` inspects: `IsDir`, `Mode().IsRegular`, and the permission
bits `Mode().Perm()` (the low 9 mode bits). -/
structure Stat where
  isDir : Bool
  isRegular : Bool
  perm : Nat
deriving Repr, DecidableEq

/-- The four possible outcomes of `openLocalFile`'s `(*os.File, error)`
return: the open failed (no such file or other error), the path is a
directory (error), the path is a non-regular file (`nil, nil`: no handle
and no error), or an open basis-file handle. -/
inductive OpenedFile where
  | openErr
  | dirErr
  | nilFile
  | opened
deriving Repr, DecidableEq

/-- Model of `Transfer.openLocalFile` (receiver.go lines 66-92): open the
destination path (`stat = none` models the open failing), error out on
directories, return no handle for non-regular files, and for regular files
overwrite `f.Mode` with the local permission bits unless preserve-perms is
set. Returns the outcome together with the (possibly updated) file entry. -/
def openLocalFile (preservePerms : Bool) (f : File) (stat : Option Stat) :
    OpenedFile × File :=
  match stat with
  | Option.none => (.openErr, f)
  | Option.some st =>
    if st.isDir then (.dirErr, f)
    else if !st.isRegular then (.nilFile, f)
    else if preservePerms then (.opened, f)
    else (.opened, { f with mode := Int.ofNat st.perm })

/-- A token of the per-file reconstruction stream, as read by `recvToken`
(declared outside src/). Modelled from the spec: a positive int32 `N` is
followed by `N` literal bytes; a negative int32 `t` is the back-reference
`-(i+1)` to block `i` (the code computes `token = -(token + 1)`, so `i ≥ 0`
covers every negative wire value); int32 0 ends the stream (the end of the
model list). -/
inductive Token where
  | literal (data : List Nat)
  | blockRef (i : Nat)
deriving Repr, DecidableEq

def Token.isLit : Token → Bool
  | .literal _ => true
  | .blockRef _ => false

/-- Length of the block copied for a back-reference to block `i`
(receiver.go lines 134-137): `sh.BlockLength`, except `sh.RemainderLength`
for the final block. The Go test is `token == sh.ChecksumCount-1` on int32
values with `token ≥ 0`, hence `i + 1 = checksumCount` on Nat. -/
def tokenLen (sh : SumHead) (i : Nat) : Nat :=
  if i + 1 = sh.checksumCount ∧ sh.remainderLength ≠ 0 then sh.remainderLength
  else sh.blockLength

/-- `filepath.Join(rt.Dest, f.Name)` for the error message; `Join` also
cleans the result, which no claim depends on. -/
def filepathJoin (dir name : String) : String := dir ++ "/" ++ name

/-- The token loop of `Transfer.receiveData` (receiver.go lines 115-146),
as the content written to the pending file: literal data is written
verbatim; a back-reference to block `i` copies `tokenLen` bytes from the
basis file at offset `i * blockLength` (`localFile.ReadAt`, which fails
with EOF when the basis is too short), and errors out when no basis handle
is open. -/
def runTokens (dest : String) (f : File) (sh : SumHead)
    (basis : Option (List Nat)) : List Token → Except String (List Nat)
  | [] => .ok []
  | Token.literal data :: rest =>
    (runTokens dest f sh basis rest).map (fun c => data ++ c)
  | Token.blockRef i :: rest =>
    match basis with
    | Option.none =>
      .error ("BUG: local file " ++ filepathJoin dest f.name ++
        " not open for copying chunk")
    | Option.some b =>
      let offset := i * sh.blockLength
      let dataLen := tokenLen sh i
      if offset + dataLen ≤ b.length then
        (runTokens dest f sh basis rest).map
          (fun c => (b.drop offset).take dataLen ++ c)
      else .error "EOF"

/-- Model of `Transfer.receiveData` (receiver.go lines 95-166) after the
sum head has been read: run the token loop into the pending file while
hashing `seed ++ content` with MD4, then read the 16 remote checksum bytes
and compare; a mismatch is the "file corruption in X" error. An `ok`
result is the content that `out.CloseAtomicallyReplace()` renames into
place; every error path leaves the pending temp file to `out.Cleanup()`. -/
def receiveData (dest : String) (f : File) (seed : Int) (sh : SumHead)
    (basis : Option (List Nat)) (tokens : List Token) (remoteSum : List Nat) :
    Except String (List Nat) :=
  match runTokens dest f sh basis tokens with
  | .error e => .error e
  | .ok content =>
    if md4 (seedBytes seed ++ content) = remoteSum then .ok content
    else .error ("file corruption in " ++ f.name)

/-- Modelled from the spec: PendingFile is "a temp file co-located with its
final name …; atomically renamed on successful close; removed on failure".
The destination content after `receiveData`: replaced by the reconstructed
bytes exactly when the transfer succeeded, untouched otherwise. -/
def destAfter (old : Option (List Nat)) (r : Except String (List Nat)) :
    Option (List Nat) :=
  match r with
  | .ok c => some c
  | .error _ => old

/-- C9: for a file entry whose destination basis exists and is a regular
file, openLocalFile with preserve-perms off overwrites f.Mode with the
permission bits of the existing destination file and modifies no other
field; with preserve-perms on it leaves f unchanged (and returns an open
handle in both cases). -/
theorem openLocalFile_perm_update (pp : Bool) (f : File) (st : Stat)
    (hd : st.isDir = false) (hr : st.isRegular = true) :
    openLocalFile pp f (some st) =
      (OpenedFile.opened, if pp then f else { f with mode := Int.ofNat st.perm }) ∧
    (openLocalFile pp f (some st)).2.name = f.name ∧
    (openLocalFile pp f (some st)).2.length = f.length ∧
    (openLocalFile pp f (some st)).2.modTime = f.modTime ∧
    (openLocalFile pp f (some st)).2.uid = f.uid ∧
    (openLocalFile pp f (some st)).2.gid = f.gid ∧
    (openLocalFile pp f (some st)).2.rdev = f.rdev ∧
    (openLocalFile pp f (some st)).2.linkTarget = f.linkTarget := by
  cases pp <;> simp [openLocalFile, hd, hr]

/-- Witness for C9 at a concrete regular-file stat (perm 0644) with
preserve-perms off: the handle opens and only the mode field changes. -/
theorem openLocalFile_perm_update_witness :
    openLocalFile false ⟨"hello", 5, 0, 511, 0, 0, 0, ""⟩ (some ⟨false, true, 420⟩) =
      (OpenedFile.opened,
        if false then (⟨"hello", 5, 0, 511, 0, 0, 0, ""⟩ : File)
        else { (⟨"hello", 5, 0, 511, 0, 0, 0, ""⟩ : File) with mode := Int.ofNat 420 }) ∧
    (openLocalFile false ⟨"hello", 5, 0, 511, 0, 0, 0, ""⟩
      (some ⟨false, true, 420⟩)).2.name = File.name ⟨"hello", 5, 0, 511, 0, 0, 0, ""⟩ ∧
    (openLocalFile false ⟨"hello", 5, 0, 511, 0, 0, 0, ""⟩
      (some ⟨false, true, 420⟩)).2.length = File.length ⟨"hello", 5, 0, 511, 0, 0, 0, ""⟩ ∧
    (openLocalFile false ⟨"hello", 5, 0, 511, 0, 0, 0, ""⟩
      (some ⟨false, true, 420⟩)).2.modTime = File.modTime ⟨"hello", 5, 0, 511, 0, 0, 0, ""⟩ ∧
    (openLocalFile false ⟨"hello", 5, 0, 511, 0, 0, 0, ""⟩
      (some ⟨false, true, 420⟩)).2.uid = File.uid ⟨"hello", 5, 0, 511, 0, 0, 0, ""⟩ ∧
    (openLocalFile false ⟨"hello", 5, 0, 511, 0, 0, 0, ""⟩
      (some ⟨false, true, 420⟩)).2.gid = File.gid ⟨"hello", 5, 0, 511, 0, 0, 0, ""⟩ ∧
    (openLocalFile false ⟨"hello", 5, 0, 511, 0, 0, 0, ""⟩
      (some ⟨false, true, 420⟩)).2.rdev = File.rdev ⟨"hello", 5, 0, 511, 0, 0, 0, ""⟩ ∧
    (openLocalFile false ⟨"hello", 5, 0, 511, 0, 0, 0, ""⟩
      (some ⟨false, true, 420⟩)).2.linkTarget
        = File.linkTarget ⟨"hello", 5, 0, 511, 0, 0, 0, ""⟩ :=
  openLocalFile_perm_update false ⟨"hello", 5, 0, 511, 0, 0, 0, ""⟩
    ⟨false, true, 420⟩ rfl rfl

/-- C3: when the token loop reconstructs content whose seeded MD4 differs
from the 16 remote checksum bytes, receiveData returns the error "file
corruption in X" for the file's name, and the destination keeps its
previous content (the pending temp file is discarded; the rename to the
final name happens only on a successful comparison). -/
theorem receiveData_integrity (dest : String) (f : File) (seed : Int)
    (sh : SumHead) (basis old : Option (List Nat)) (tokens : List Token)
    (remoteSum content : List Nat)
    (hrun : runTokens dest f sh basis tokens = Except.ok content) :
    (md4 (seedBytes seed ++ content) ≠ remoteSum →
      receiveData dest f seed sh basis tokens remoteSum =
        Except.error ("file corruption in " ++ f.name) ∧
      destAfter old (receiveData dest f seed sh basis tokens remoteSum) = old) ∧
    (∀ c, receiveData dest f seed sh basis tokens remoteSum = Except.ok c →
      md4 (seedBytes seed ++ c) = remoteSum ∧
      destAfter old (Except.ok c) = some c) := by
  constructor
  · intro hsum
    simp [receiveData, hrun, hsum, destAfter]
  · intro c hc
    simp only [receiveData, hrun] at hc
    by_cases hif : md4 (seedBytes seed ++ content) = remoteSum
    · rw [if_pos hif] at hc
      cases hc
      exact ⟨hif, rfl⟩
    · rw [if_neg hif] at hc
      exact absurd hc (by simp)

/-- Witness for C3: a two-byte literal stream against an all-zero remote
checksum; the computed MD4 differs, the corruption error is raised and the
old destination content [9] survives. -/
theorem receiveData_integrity_witness :
    (md4 (seedBytes 666 ++ [104, 105]) ≠ List.replicate 16 0 →
      receiveData "d" ⟨"x", 2, 0, 420, 0, 0, 0, ""⟩ 666 ⟨0, 0, 16, 0⟩
          Option.none [Token.literal [104, 105]] (List.replicate 16 0) =
        Except.error ("file corruption in " ++ File.name ⟨"x", 2, 0, 420, 0, 0, 0, ""⟩) ∧
      destAfter (some [9])
          (receiveData "d" ⟨"x", 2, 0, 420, 0, 0, 0, ""⟩ 666 ⟨0, 0, 16, 0⟩
            Option.none [Token.literal [104, 105]] (List.replicate 16 0)) =
        some [9]) ∧
    (∀ c, receiveData "d" ⟨"x", 2, 0, 420, 0, 0, 0, ""⟩ 666 ⟨0, 0, 16, 0⟩
          Option.none [Token.literal [104, 105]] (List.replicate 16 0) =
        Except.ok c →
      md4 (seedBytes 666 ++ c) = List.replicate 16 0 ∧
      destAfter (some [9]) (Except.ok c) = some c) :=
  receiveData_integrity "d" ⟨"x", 2, 0, 420, 0, 0, 0, ""⟩ 666 ⟨0, 0, 16, 0⟩
    Option.none (some [9]) [Token.literal [104, 105]] (List.replicate 16 0)
    [104, 105] rfl

theorem runTokens_no_basis_ref (dest : String) (f : File) (sh : SumHead)
    (pre rest : List Token) (i : Nat) (hpre : pre.all Token.isLit = true) :
    runTokens dest f sh Option.none (pre ++ Token.blockRef i :: rest) =
      Except.error ("BUG: local file " ++ filepathJoin dest f.name ++
        " not open for copying chunk") := by
  induction pre with
  | nil => simp [runTokens]
  | cons t pre ih =>
    cases t with
    | literal data =>
      have hpre' : pre.all Token.isLit = true := by
        simpa [Token.isLit] using hpre
      simp [runTokens, ih hpre', Except.map]
    | blockRef j => simp [Token.isLit] at hpre

/-- C10: when the destination basis path exists but is neither a regular
file nor a directory, openLocalFile returns no file handle and no error,
and any block-reference token in that file's stream (here: the first one,
after any run of literals) makes receiveData fail with the
not-open-for-copying error instead of reading through the non-regular
file. -/
theorem nonRegular_basis_never_read (pp : Bool) (f : File) (st : Stat)
    (hd : st.isDir = false) (hr : st.isRegular = false)
    (dest : String) (seed : Int) (sh : SumHead) (remoteSum : List Nat)
    (pre rest : List Token) (i : Nat) (hpre : pre.all Token.isLit = true) :
    openLocalFile pp f (some st) = (OpenedFile.nilFile, f) ∧
    receiveData dest f seed sh Option.none (pre ++ Token.blockRef i :: rest)
        remoteSum =
      Except.error ("BUG: local file " ++ filepathJoin dest f.name ++
        " not open for copying chunk") := by
  constructor
  · cases pp <;> simp [openLocalFile, hd, hr]
  · simp [receiveData, runTokens_no_basis_ref dest f sh pre rest i hpre]

/-- Witness for C10: a symlink-like stat (not a dir, not regular) and the
stream [literal [1], ref 0]: no handle is returned and receiveData errors. -/
theorem nonRegular_basis_never_read_witness :
    openLocalFile false ⟨"s", 1, 0, 420, 0, 0, 0, "t"⟩ (some ⟨false, false, 420⟩) =
      (OpenedFile.nilFile, ⟨"s", 1, 0, 420, 0, 0, 0, "t"⟩) ∧
    receiveData "d" ⟨"s", 1, 0, 420, 0, 0, 0, "t"⟩ 0 ⟨1, 700, 16, 0⟩
        Option.none ([Token.literal [1]] ++ Token.blockRef 0 :: []) [] =
      Except.error ("BUG: local file " ++
        filepathJoin "d" (File.name ⟨"s", 1, 0, 420, 0, 0, 0, "t"⟩) ++
        " not open for copying chunk") :=
  nonRegular_basis_never_read false ⟨"s", 1, 0, 420, 0, 0, 0, "t"⟩
    ⟨false, false, 420⟩ rfl rfl "d" 0 ⟨1, 700, 16, 0⟩ []
    [Token.literal [1]] [] 0 rfl

/-- A block slice in the claim's words: the bytes of the basis at offsets
`off`, `off+1`, …, `off+len-1`. -/
def specSlice (b : List Nat) (off len : Nat) : List Nat :=
  (List.range len).map (fun j => b.getD (off + j) 0)

/-- The claim's reading of the token stream semantics: literals verbatim;
`blockRef i` copies `blockLength` bytes at offset `i * blockLength` from
the basis, except the final block (index `checksumCount - 1`, an int32
index, when `remainderLength` is non-zero) which copies `remainderLength`
bytes; the stream end yields the accumulated content. -/
def specReconstruct (sh : SumHead) (basis : Option (List Nat)) :
    List Token → Option (List Nat)
  | [] => some []
  | Token.literal data :: rest =>
    (specReconstruct sh basis rest).map (fun c => data ++ c)
  | Token.blockRef i :: rest =>
    match basis with
    | Option.none => Option.none
    | Option.some b =>
      let len := if (i : Int) = (sh.checksumCount : Int) - 1 ∧ sh.remainderLength ≠ 0
        then sh.remainderLength else sh.blockLength
      if i * sh.blockLength + len ≤ b.length then
        (specReconstruct sh basis rest).map
          (fun c => specSlice b (i * sh.blockLength) len ++ c)
      else Option.none

theorem tokenLen_eq_specLen (sh : SumHead) (i : Nat) :
    tokenLen sh i =
      (if (i : Int) = (sh.checksumCount : Int) - 1 ∧ sh.remainderLength ≠ 0
        then sh.remainderLength else sh.blockLength) := by
  have hiff : (i + 1 = sh.checksumCount ∧ sh.remainderLength ≠ 0) ↔
      ((i : Int) = (sh.checksumCount : Int) - 1 ∧ sh.remainderLength ≠ 0) := by
    constructor <;> exact fun ⟨h1, h2⟩ => ⟨by omega, h2⟩
  rw [tokenLen, if_congr hiff rfl rfl]

theorem drop_take_eq_specSlice (b : List Nat) (off len : Nat)
    (h : off + len ≤ b.length) :
    (b.drop off).take len = specSlice b off len := by
  apply List.ext_getElem
  · simp [specSlice]
    omega
  · intro j h1 h2
    simp only [specSlice, List.getElem_map, List.getElem_range]
    rw [List.getElem_take, List.getElem_drop,
      List.getD_eq_getElem b 0 (by simp at h1 ⊢; omega)]

/-- C4: the receiver's token loop writes literal payloads verbatim and, for
each back-reference to block `i`, the basis bytes at offset
`i * blockLength` of length `blockLength` (or `remainderLength` for the
final block when the remainder is non-zero); the loop produces content `c`
exactly when the claim's reconstruction does. -/
theorem runTokens_matches_spec (dest : String) (f : File) (sh : SumHead)
    (basis : Option (List Nat)) (tokens : List Token) (c : List Nat) :
    runTokens dest f sh basis tokens = Except.ok c ↔
      specReconstruct sh basis tokens = some c := by
  induction tokens generalizing c with
  | nil => simp [runTokens, specReconstruct]
  | cons t rest ih =>
    cases t with
    | literal data =>
      simp only [runTokens, specReconstruct]
      cases hr : runTokens dest f sh basis rest with
      | error e =>
        have hs : specReconstruct sh basis rest = Option.none := by
          cases hs' : specReconstruct sh basis rest with
          | none => rfl
          | some y => exact absurd ((ih y).mpr hs') (by simp [hr])
        simp [hr, hs, Except.map]
      | ok x =>
        have hs := (ih x).mp hr
        simp [hr, hs, Except.map]
    | blockRef i =>
      cases basis with
      | none => simp [runTokens, specReconstruct]
      | some b =>
        simp only [runTokens, specReconstruct, tokenLen_eq_specLen]
        by_cases havail : i * sh.blockLength +
            (if (i : Int) = (sh.checksumCount : Int) - 1 ∧ sh.remainderLength ≠ 0
              then sh.remainderLength else sh.blockLength) ≤ b.length
        · rw [if_pos havail, if_pos havail,
            drop_take_eq_specSlice b _ _ havail]
          cases hr : runTokens dest f sh (some b) rest with
          | error e =>
            have hs : specReconstruct sh (some b) rest = Option.none := by
              cases hs' : specReconstruct sh (some b) rest with
              | none => rfl
              | some y => exact absurd ((ih y).mpr hs') (by simp [hr])
            simp [hr, hs, Except.map]
          | ok x =>
            have hs := (ih x).mp hr
            simp [hr, hs, Except.map]
        · rw [if_neg havail, if_neg havail]
          simp

/-! ## Deletion pass (internal/receiver/generatorsymlink.go, `deleteFiles` / `Transfer.Do`)

`filepath.Walk(root, …)` visits the (cleaned) destination root and every
path below it. The model represents the destination tree by the list of
relative names `disk` of the entries below the root, each visited at path
`root ++ "/" ++ rel`, plus the root itself; paths are lists of characters
so that the `strings.TrimPrefix` name computation can be reasoned about.
The model takes `root` already cleaned (the code applies
`filepath.Clean(rt.Dest)` first) and, being pure, has no I/O failures. -/

/-- `isTopDir` (generatorsymlink.go lines 23-32): the flag check is a TODO
in the source; only the `.` sentinel entry counts as a top-level dir. -/
def isTopDir (f : File) : Bool := f.name == "."

/-- Modelled from the spec: `findInFileList` is declared outside src/; the
spec says deletion removes "any path present on disk but absent from the
file list", so this is membership of the walk name among the file-list
entry names. -/
def findInFileList (fileList : List File) (name : List Char) : Bool :=
  fileList.any (fun f => f.name.data == name)

/-- `strings.TrimPrefix(s, pre)`: drop the prefix when present, else return
`s` unchanged. -/
def trimPrefixStr (s pre : List Char) : List Char :=
  if pre.isPrefixOf s then s.drop pre.length else s

/-- The walk-callback name computation (generatorsymlink.go lines 54-57):
`name := strings.TrimPrefix(path, root+"/"); if name == root { name = "." }`.
For the root itself the trim leaves `path = root` unchanged and the
comparison rewrites it to `.`. -/
def walkName (root path : List Char) : List Char :=
  let name := trimPrefixStr path (root ++ ['/'])
  if name = root then ['.'] else name

/-- An entry of the destination tree below the root: its relative name
(as the walk-name computation produces it for that path) and whether it is
a directory. A `disk` list is given in `filepath.Walk` order: lexical
pre-order, each directory before the entries below it. -/
structure DiskEntry where
  rel : List Char
  isDir : Bool
deriving Repr, DecidableEq

/-- Whether `child` lies strictly below `parent` in the tree, textually:
`parent ++ "/"` is a prefix of `child`. -/
def isUnder (parent child : List Char) : Bool :=
  (parent ++ ['/']).isPrefixOf child

/-- The walk over the entries below the root (the callback of
generatorsymlink.go lines 50-71), visiting `visit` in walk order while
`onDisk` tracks the entries not yet removed. Per path: compute the walk
name; keep the entry when that name is in the file list; under dry-run
return before removing; otherwise `os.Remove` the path. `os.Remove` fails
with ENOTEMPTY for a directory that still has entries below it — and since
`filepath.Walk` is pre-order, a directory is always visited before its
children could be removed — whereupon the callback returns the error and
the walk aborts (removals made so far persist on disk). Returns (removed
relative names in order, remaining entries, aborted?). -/
def runWalk (dryRun : Bool) (root : List Char) (fileList : List File) :
    List DiskEntry → List DiskEntry → List (List Char) × List DiskEntry × Bool
  | [], onDisk => ([], onDisk, false)
  | e :: rest, onDisk =>
    if findInFileList fileList (walkName root (root ++ ['/'] ++ e.rel)) then
      runWalk dryRun root fileList rest onDisk
    else if dryRun then
      runWalk dryRun root fileList rest onDisk
    else if e.isDir && onDisk.any (fun e2 => isUnder e.rel e2.rel) then
      ([], onDisk, true)
    else
      let r := runWalk dryRun root fileList rest (onDisk.erase e)
      (e.rel :: r.1, r.2)

/-- One `filepath.Walk(root, …)` call: the root itself is visited first and
its walk name is rewritten to `.`, so it is kept whenever the file list has
a `.` entry — always the case when a top-level entry triggered the walk.
In the unreachable remaining case (no `.` entry, yet a walk running),
removing the root itself fails with ENOTEMPTY whenever entries remain; the
root's own removal (possible only for an empty destination) is not an
entry-below-the-root and is not tracked in the removal list. -/
def walkPass (dryRun : Bool) (root : List Char) (fileList : List File)
    (onDisk : List DiskEntry) : List (List Char) × List DiskEntry × Bool :=
  if findInFileList fileList (walkName root root) then
    runWalk dryRun root fileList onDisk onDisk
  else if dryRun then
    runWalk dryRun root fileList onDisk onDisk
  else ([], onDisk, !onDisk.isEmpty)

/-- The loop of `Transfer.deleteFiles` over the file list: one walk of the
destination per top-level entry, threading the remaining entries; a failed
walk makes `deleteFiles` return the error at once (generatorsymlink.go
lines 72-77), so later top-level entries are not processed. Returns
(removed relative names, aborted-with-error?). -/
def deleteLoop (dryRun : Bool) (root : List Char) (fileList : List File) :
    List File → List DiskEntry → List (List Char) × Bool
  | [], _ => ([], false)
  | f :: fs, onDisk =>
    if isTopDir f then
      let r := walkPass dryRun root fileList onDisk
      if r.2.2 then (r.1, true)
      else
        let r2 := deleteLoop dryRun root fileList fs r.2.1
        (r.1 ++ r2.1, r2.2)
    else deleteLoop dryRun root fileList fs onDisk

/-- Model of `Transfer.deleteFiles` (generatorsymlink.go lines 34-80):
nothing is removed when the observed i/o-error count is positive, else the
per-top-level-entry walk loop runs. -/
def deleteFiles (dryRun : Bool) (ioErrors : Nat) (dest : List Char)
    (fileList : List File) (disk : List DiskEntry) : List (List Char) × Bool :=
  if 0 < ioErrors then ([], false)
  else deleteLoop dryRun dest fileList fileList disk

/-- The guard in `Transfer.Do` (generatorsymlink.go lines 84-88):
`deleteFiles` runs only in delete mode. -/
def doDeletions (deleteMode dryRun : Bool) (ioErrors : Nat) (dest : List Char)
    (fileList : List File) (disk : List DiskEntry) : List (List Char) × Bool :=
  if deleteMode then deleteFiles dryRun ioErrors dest fileList disk
  else ([], false)

theorem walkName_child (root rel : List Char) (hne : rel ≠ root) :
    walkName root (root ++ ['/'] ++ rel) = rel := by
  have hp : (root ++ ['/']).isPrefixOf (root ++ ['/'] ++ rel) = true := by
    rw [List.isPrefixOf_iff_prefix]
    exact ⟨rel, rfl⟩
  simp [walkName, trimPrefixStr, hp, List.drop_left, hne]

theorem walkName_root (root : List Char) : walkName root root = ['.'] := by
  have hnp : ¬((root ++ ['/']).isPrefixOf root = true) := by
    rw [List.isPrefixOf_iff_prefix]
    intro hp
    have hle := hp.length_le
    simp at hle
  simp [walkName, trimPrefixStr, hnp]

theorem topdir_found (fileList : List File)
    (htd : ∃ f ∈ fileList, isTopDir f = true) :
    findInFileList fileList ['.'] = true := by
  obtain ⟨f, hf, htop⟩ := htd
  have hname : f.name = "." := eq_of_beq htop
  rw [findInFileList, List.any_eq_true]
  exact ⟨f, hf, by rw [hname]; rfl⟩

theorem runWalk_dry (root : List Char) (fileList : List File) :
    ∀ (visit onDisk : List DiskEntry),
      runWalk true root fileList visit onDisk = ([], onDisk, false) := by
  intro visit
  induction visit with
  | nil => intro onDisk; rfl
  | cons e rest ih => intro onDisk; simp [runWalk, ih]

theorem runWalk_final_subset (dryRun : Bool) (root : List Char)
    (fileList : List File) :
    ∀ (visit onDisk : List DiskEntry),
      (runWalk dryRun root fileList visit onDisk).2.1 ⊆ onDisk := by
  intro visit
  induction visit with
  | nil => intro onDisk; simp [runWalk]
  | cons e rest ih =>
    intro onDisk
    simp only [runWalk]
    split
    · exact ih onDisk
    · split
      · exact ih onDisk
      · split
        · simp
        · intro x hx
          exact List.mem_of_mem_erase (ih (onDisk.erase e) hx)

theorem runWalk_final_subset_walkPass (dryRun : Bool) (root : List Char)
    (fileList : List File) (onDisk : List DiskEntry) :
    (walkPass dryRun root fileList onDisk).2.1 ⊆ onDisk := by
  rw [walkPass]
  split
  · exact runWalk_final_subset dryRun root fileList onDisk onDisk
  · split
    · exact runWalk_final_subset dryRun root fileList onDisk onDisk
    · exact fun x hx => hx

theorem runWalk_removed_extra (dryRun : Bool) (root : List Char)
    (fileList : List File) :
    ∀ (visit onDisk : List DiskEntry) (rel : List Char),
      (∀ e ∈ visit, e.rel ≠ root) →
      rel ∈ (runWalk dryRun root fileList visit onDisk).1 →
      (∃ e ∈ visit, e.rel = rel) ∧ findInFileList fileList rel = false := by
  intro visit
  induction visit with
  | nil => intro onDisk rel h1 hmem; simp [runWalk] at hmem
  | cons e rest ih =>
    intro onDisk rel h1 hmem
    have hname : walkName root (root ++ ['/'] ++ e.rel) = e.rel :=
      walkName_child root e.rel (h1 e (List.mem_cons_self e rest))
    have h1' : ∀ e' ∈ rest, e'.rel ≠ root :=
      fun e' he' => h1 e' (List.mem_cons_of_mem e he')
    simp only [runWalk, hname] at hmem
    by_cases hf : findInFileList fileList e.rel = true
    · rw [if_pos hf] at hmem
      obtain ⟨⟨e', he', hrel⟩, hfind⟩ := ih onDisk rel h1' hmem
      exact ⟨⟨e', List.mem_cons_of_mem e he', hrel⟩, hfind⟩
    · rw [if_neg hf] at hmem
      by_cases hd : dryRun = true
      · rw [if_pos hd] at hmem
        obtain ⟨⟨e', he', hrel⟩, hfind⟩ := ih onDisk rel h1' hmem
        exact ⟨⟨e', List.mem_cons_of_mem e he', hrel⟩, hfind⟩
      · rw [if_neg hd] at hmem
        by_cases hblk : (e.isDir && onDisk.any fun e2 => isUnder e.rel e2.rel) = true
        · rw [if_pos hblk] at hmem
          simp at hmem
        · rw [if_neg hblk] at hmem
          simp only [List.mem_cons] at hmem
          rcases hmem with rfl | hmem
          · exact ⟨⟨e, List.mem_cons_self e rest, rfl⟩, by simpa using hf⟩
          · obtain ⟨⟨e', he', hrel⟩, hfind⟩ := ih (onDisk.erase e) rel h1' hmem
            exact ⟨⟨e', List.mem_cons_of_mem e he', hrel⟩, hfind⟩

theorem runWalk_clean (root : List Char) (fileList : List File) :
    ∀ (visit onDisk : List DiskEntry),
      (∀ e ∈ visit, e.rel ≠ root) →
      (∀ e ∈ visit, findInFileList fileList e.rel = false →
        e.isDir = false ∨ ∀ e2 ∈ onDisk, isUnder e.rel e2.rel = false) →
      (runWalk false root fileList visit onDisk).1 =
        (visit.filter (fun e => !findInFileList fileList e.rel)).map DiskEntry.rel ∧
      (runWalk false root fileList visit onDisk).2.2 = false := by
  intro visit
  induction visit with
  | nil => intro onDisk h1 h2; simp [runWalk]
  | cons e rest ih =>
    intro onDisk h1 h2
    have hname : walkName root (root ++ ['/'] ++ e.rel) = e.rel :=
      walkName_child root e.rel (h1 e (List.mem_cons_self e rest))
    have h1' : ∀ e' ∈ rest, e'.rel ≠ root :=
      fun e' he' => h1 e' (List.mem_cons_of_mem e he')
    simp only [runWalk, hname]
    by_cases hf : findInFileList fileList e.rel = true
    · rw [if_pos hf]
      have h2' : ∀ e' ∈ rest, findInFileList fileList e'.rel = false →
          e'.isDir = false ∨ ∀ e2 ∈ onDisk, isUnder e'.rel e2.rel = false :=
        fun e' he' => h2 e' (List.mem_cons_of_mem e he')
      obtain ⟨ha, hb⟩ := ih onDisk h1' h2'
      refine ⟨?_, hb⟩
      rw [List.filter_cons]
      simp only [hf, Bool.not_true, Bool.false_eq_true, if_false]
      exact ha
    · rw [if_neg hf]
      have hff : findInFileList fileList e.rel = false := by simpa using hf
      rw [if_neg Bool.false_ne_true]
      have hblk : (e.isDir && onDisk.any fun e2 => isUnder e.rel e2.rel) = false := by
        rcases h2 e (List.mem_cons_self e rest) hff with hdir | hall
        · simp [hdir]
        · have hany : (onDisk.any fun e2 => isUnder e.rel e2.rel) = false := by
            rw [List.any_eq_false]
            intro e2 he2
            simp [hall e2 he2]
          simp [hany]
      rw [if_neg (by simp [hblk])]
      have h2' : ∀ e' ∈ rest, findInFileList fileList e'.rel = false →
          e'.isDir = false ∨ ∀ e2 ∈ onDisk.erase e, isUnder e'.rel e2.rel = false :=
        fun e' he' hfe' =>
          (h2 e' (List.mem_cons_of_mem e he') hfe').imp (fun h => h)
            (fun hall e2 he2 => hall e2 (List.mem_of_mem_erase he2))
      obtain ⟨ha, hb⟩ := ih (onDisk.erase e) h1' h2'
      constructor
      · show e.rel :: (runWalk false root fileList rest (onDisk.erase e)).1 = _
        rw [List.filter_cons]
        simp only [hff, Bool.not_false, if_true, List.map_cons]
        rw [ha]
      · show (runWalk false root fileList rest (onDisk.erase e)).2.2 = false
        exact hb

theorem deleteLoop_removed_extra (dryRun : Bool) (root : List Char)
    (fileList : List File) :
    ∀ (fs : List File) (onDisk : List DiskEntry) (rel : List Char),
      (∀ e ∈ onDisk, e.rel ≠ root) →
      rel ∈ (deleteLoop dryRun root fileList fs onDisk).1 →
      (∃ e ∈ onDisk, e.rel = rel) ∧ findInFileList fileList rel = false ∧
        (∃ f ∈ fs, isTopDir f = true) ∧ dryRun = false := by
  intro fs
  induction fs with
  | nil => intro onDisk rel h1 hmem; simp [deleteLoop] at hmem
  | cons f fs ih =>
    intro onDisk rel h1 hmem
    simp only [deleteLoop] at hmem
    by_cases hf : isTopDir f = true
    · rw [if_pos hf] at hmem
      by_cases hd : dryRun = true
      · subst hd
        have hr1 : (walkPass true root fileList onDisk).1 = [] := by
          rw [walkPass]
          split
          · rw [runWalk_dry]
          · rw [if_pos rfl, runWalk_dry]
        by_cases hw : (walkPass true root fileList onDisk).2.2 = true
        · rw [if_pos hw] at hmem
          rw [hr1] at hmem
          simp at hmem
        · rw [if_neg hw] at hmem
          rw [hr1] at hmem
          simp only [List.nil_append] at hmem
          obtain ⟨-, -, -, hdry⟩ := ih _ rel (fun e he =>
            h1 e (runWalk_final_subset_walkPass true root fileList onDisk he)) hmem
          exact absurd hdry (by simp)
      · have hdf : dryRun = false := by simpa using hd
        subst hdf
        have hrw : ∀ x, x ∈ (walkPass false root fileList onDisk).1 →
            (∃ e ∈ onDisk, e.rel = x) ∧ findInFileList fileList x = false := by
          intro x
          rw [walkPass]
          split
          · exact fun hx => runWalk_removed_extra false root fileList onDisk onDisk x h1 hx
          · intro hx
            simp at hx
        have hsub : (walkPass false root fileList onDisk).2.1 ⊆ onDisk :=
          runWalk_final_subset_walkPass false root fileList onDisk
        by_cases hw : (walkPass false root fileList onDisk).2.2 = true
        · rw [if_pos hw] at hmem
          obtain ⟨he, hfind⟩ := hrw rel hmem
          exact ⟨he, hfind, ⟨f, List.mem_cons_self f fs, hf⟩, rfl⟩
        · rw [if_neg hw] at hmem
          rcases List.mem_append.mp hmem with hx | hx
          · obtain ⟨he, hfind⟩ := hrw rel hx
            exact ⟨he, hfind, ⟨f, List.mem_cons_self f fs, hf⟩, rfl⟩
          · have h1' : ∀ e ∈ (walkPass false root fileList onDisk).2.1, e.rel ≠ root :=
              fun e he => h1 e (hsub he)
            obtain ⟨⟨e2, he2, hrel⟩, hfind, -, -⟩ := ih _ rel h1' hx
            exact ⟨⟨e2, hsub he2, hrel⟩, hfind, ⟨f, List.mem_cons_self f fs, hf⟩, rfl⟩
    · rw [if_neg hf] at hmem
      obtain ⟨he, hfind, ⟨g, hg, hgtop⟩, hdry⟩ := ih onDisk rel h1 hmem
      exact ⟨he, hfind, ⟨g, List.mem_cons_of_mem f hg, hgtop⟩, hdry⟩

theorem deleteLoop_removes (root : List Char) (fileList : List File)
    (disk : List DiskEntry) (rel : List Char)
    (h1 : ∀ e ∈ disk, e.rel ≠ root)
    (h2 : ∀ e ∈ disk, findInFileList fileList e.rel = false →
      e.isDir = false ∨ ∀ e2 ∈ disk, isUnder e.rel e2.rel = false)
    (hmem : ∃ e ∈ disk, e.rel = rel)
    (hextra : findInFileList fileList rel = false)
    (hdot : findInFileList fileList ['.'] = true) :
    ∀ fs, (∃ f ∈ fs, isTopDir f = true) →
      rel ∈ (deleteLoop false root fileList fs disk).1 := by
  intro fs
  induction fs with
  | nil => rintro ⟨f, hf, -⟩; simp at hf
  | cons f fs ih =>
    rintro ⟨g, hg, hgtop⟩
    simp only [deleteLoop]
    by_cases hf : isTopDir f = true
    · rw [if_pos hf]
      have hwp : walkPass false root fileList disk =
          runWalk false root fileList disk disk := by
        rw [walkPass, walkName_root, if_pos hdot]
      obtain ⟨hclean1, hclean2⟩ := runWalk_clean root fileList disk disk h1 h2
      have hrel : rel ∈ (walkPass false root fileList disk).1 := by
        rw [hwp, hclean1]
        obtain ⟨e, he, herel⟩ := hmem
        apply List.mem_map.mpr
        refine ⟨e, ?_, herel⟩
        rw [List.mem_filter]
        exact ⟨he, by simp [herel, hextra]⟩
      have hfail : (walkPass false root fileList disk).2.2 = false := by
        rw [hwp]; exact hclean2
      rw [if_neg (by simp [hfail])]
      exact List.mem_append_left _ hrel
    · rw [if_neg hf]
      rcases List.mem_cons.mp hg with rfl | hg'
      · exact absurd hgtop hf
      · exact ih ⟨g, hg', hgtop⟩

/-- C2, counterexample: three concrete states where every condition of the
claim as stated holds (delete mode on, zero i/o errors, a top-level `.`
entry, and the on-disk path's name absent from the file list) and yet the
path is not deleted. First, in dry-run mode `deleteFiles` returns before
`os.Remove`. Second, an entry whose relative name textually equals the
destination path (`dest "d"`, entry `d`) is shielded by the walk callback's
`if name == root { name = "." }` rewrite, which makes it look like the kept
`.` entry. Third, a non-empty extra directory (`x` containing `x/y`): the
pre-order walk reaches `x` before `x/y`, `os.Remove(x)` fails with
ENOTEMPTY, and the whole deletion pass aborts with that error, removing
neither path. -/
theorem deletion_claim_counterexamples :
    ((doDeletions true true 0 ['d'] [⟨".", 0, 0, 0, 0, 0, 0, ""⟩]
        [⟨['e'], false⟩]).1 = [] ∧
      findInFileList [⟨".", 0, 0, 0, 0, 0, 0, ""⟩] ['e'] = false ∧
      isTopDir ⟨".", 0, 0, 0, 0, 0, 0, ""⟩ = true) ∧
    ((doDeletions true false 0 ['d'] [⟨".", 0, 0, 0, 0, 0, 0, ""⟩]
        [⟨['d'], false⟩]).1 = [] ∧
      findInFileList [⟨".", 0, 0, 0, 0, 0, 0, ""⟩] ['d'] = false) ∧
    ((doDeletions true false 0 ['d'] [⟨".", 0, 0, 0, 0, 0, 0, ""⟩]
        [⟨['x'], true⟩, ⟨['x', '/', 'y'], false⟩]).1 = [] ∧
      (doDeletions true false 0 ['d'] [⟨".", 0, 0, 0, 0, 0, 0, ""⟩]
        [⟨['x'], true⟩, ⟨['x', '/', 'y'], false⟩]).2 = true ∧
      findInFileList [⟨".", 0, 0, 0, 0, 0, 0, ""⟩] ['x'] = false ∧
      findInFileList [⟨".", 0, 0, 0, 0, 0, 0, ""⟩] ['x', '/', 'y'] = false) := by
  decide

/-- C2, amended: for a destination whose entries' relative names all differ
from the destination root's path text (the walk callback's name==root
rewrite shields such entries) and in which no extra entry is a directory
that still contains entries (removing one fails with ENOTEMPTY and aborts
the deletion pass), a destination path is deleted iff delete mode is
active, dry-run is off, the observed i/o-error count is 0, the file list
contains a top-level-directory entry (the `.` sentinel, under which the
whole destination lies), and the path's relative name is absent from the
file list; in every other case the destination's extra files remain. -/
theorem deletion_iff (deleteMode dryRun : Bool) (ioErrors : Nat)
    (dest : List Char) (fileList : List File) (disk : List DiskEntry)
    (e : DiskEntry)
    (hshield : ∀ e2 ∈ disk, e2.rel ≠ dest)
    (hclean : ∀ e2 ∈ disk, findInFileList fileList e2.rel = false →
      e2.isDir = false ∨ ∀ e3 ∈ disk, isUnder e2.rel e3.rel = false)
    (hmem : e ∈ disk) :
    e.rel ∈ (doDeletions deleteMode dryRun ioErrors dest fileList disk).1 ↔
      (deleteMode = true ∧ dryRun = false ∧ ioErrors = 0 ∧
        (∃ f ∈ fileList, isTopDir f = true) ∧
        findInFileList fileList e.rel = false) := by
  rw [doDeletions]
  cases deleteMode with
  | false => simp
  | true =>
    rw [if_pos rfl, deleteFiles]
    by_cases hio : 0 < ioErrors
    · rw [if_pos hio]
      have hio' : ioErrors ≠ 0 := by omega
      simp [hio']
    · rw [if_neg hio]
      have hio0 : ioErrors = 0 := by omega
      constructor
      · intro hdel
        obtain ⟨-, hfind, htd, hdry⟩ :=
          deleteLoop_removed_extra dryRun dest fileList fileList disk e.rel
            hshield hdel
        exact ⟨rfl, hdry, hio0, htd, hfind⟩
      · rintro ⟨-, hdry, -, htd, hfind⟩
        subst hdry
        exact deleteLoop_removes dest fileList disk e.rel hshield hclean
          ⟨e, hmem, rfl⟩ hfind (topdir_found fileList htd) fileList htd

/-- Witness for C2 (amended) on a concrete state: root `d`, file list with
the `.` top-level entry, one on-disk file `e` absent from the list; with
delete mode on, dry-run off and no i/o errors the iff instantiates. -/
theorem deletion_iff_witness :
    ((DiskEntry.mk ['e'] false).rel ∈
        (doDeletions true false 0 ['d'] [⟨".", 0, 0, 0, 0, 0, 0, ""⟩]
          [⟨['e'], false⟩]).1 ↔
      (true = true ∧ false = false ∧ 0 = 0 ∧
        (∃ f ∈ ([⟨".", 0, 0, 0, 0, 0, 0, ""⟩] : List File), isTopDir f = true) ∧
        findInFileList [⟨".", 0, 0, 0, 0, 0, 0, ""⟩]
          (DiskEntry.mk ['e'] false).rel = false)) :=
  deletion_iff true false 0 ['d'] [⟨".", 0, 0, 0, 0, 0, 0, ""⟩]
    [⟨['e'], false⟩] ⟨['e'], false⟩ (by decide) (by decide) (by decide)

end GokrRsync
